import Mathlib

/-!
Verification of the graph-execution core of the libnd4j repository.

The data model is a shallow embedding of `include/graph/Node.h`.  The only
member function implemented inside the in-scope sources is
`Node::pullValues` (an `SD_INLINE` body in the header); it is embedded
statement by statement.  Member functions whose bodies live outside the
in-scope sources (`pickOutputOnce`, `equals`, `Graph::buildGraph`,
`Graph::fetchOutputs`, the executioner) are modelled from the
specification, and each such definition carries a doc comment saying so.

Machine integers (`int`, `sd::LongType`) are modelled as `Int`: none of the
verified operations performs arithmetic that could overflow, they only
copy, compare and append.  The `NDArray _scalar` attribute is modelled by
its scalar value as a rational number.  Raw pointers that merely reference
heap objects (`_protoContext`, `_customOp`) are modelled as optional
handles; `delete` of an owned object is modelled by reporting the release
as an explicit boolean output, since `pullValues` never nulls or replaces
the `_customOp` pointer itself.
-/

namespace Nd4j

/-- `OpType` discriminant, from the graph scheme (the generated enum header
is outside the in-scope sources; the variants are the ones the spec lists). -/
inductive OpType where
  | TRANSFORM_SAME
  | TRANSFORM_STRICT
  | TRANSFORM_FLOAT
  | TRANSFORM_BOOL
  | PAIRWISE
  | SCALAR
  | REDUCTION
  | INDEX_REDUCTION
  | BROADCAST
  | RANDOM
  | SHAPE
  | CUSTOM
  | BOOLEAN
  | LOGIC
  | GRAPH
  deriving DecidableEq, Repr

/-- Shallow embedding of `sd::graph::Node` (include/graph/Node.h).  Fields
keep the header's names without the leading underscore.  `_dim`,
`_extraParams`, `_opClass` and the embedded-graph pointer play no role in
any verified operation and are omitted; `_protoContext` and `_customOp`
are optional handles; `_scalar` is the scalar's value. -/
structure Node where
  dataType : Int
  opType : OpType
  protoContext : Option Int
  opNum : Int
  id : Int
  input : List (Int × Int)
  output : List (Int × Int)
  dimensions : List Int
  referencedBy : List Int
  name : String
  /-- points to onion layer within graph; `int _layer = -1;` in the header -/
  layer : Int
  /-- optional scalar, `NDArray _scalar`, modelled by its value -/
  scalar : Rat
  hasExternalOutputs : Bool
  hasExternalInputs : Bool
  hasInternalOutputs : Bool
  hasInternalInputs : Bool
  /-- `bool _isInplace = false;` -/
  isInplace : Bool
  /-- `bool _isDeductable = false;` -/
  isDeductable : Bool
  customOp : Option Int
  /-- `bool _active = true;` -/
  active : Bool
  /-- `int _scope_id = 0;` -/
  scopeId : Int
  scopeName : String
  /-- `int _rewindNode = -1;` -/
  rewindNode : Int
  /-- `std::pair<int, int> _rewindLayer = \x7b-1, -1\x7d;` -/
  rewindLayer : Int × Int
  /-- `sd::LongType _frameId = -1;` -/
  frameId : Int
  deriving DecidableEq, Repr

namespace Node

/-- A freshly constructed node.  The constructor bodies live outside the
in-scope sources; the identity, edge and attribute arguments mirror the
constructor signature `Node(opType, opNum, id, input, output, dimensions,
scalar, ...)`, and every control-flow field takes the in-class
member initializer value written in the header (`_layer = -1`,
`_isInplace = false`, `_isDeductable = false`, `_active = true`,
`_scope_id = 0`, `_rewindNode = -1`, `_rewindLayer = \x7b-1,-1\x7d`,
`_frameId = -1`, null `_protoContext` and `_customOp`). -/
def fresh (opType : OpType) (opNum : Int) (id : Int)
    (input : List (Int × Int)) (output : List (Int × Int))
    (dimensions : List Int) (scalar : Rat) : Node where
  dataType := 0
  opType := opType
  protoContext := none
  opNum := opNum
  id := id
  input := input
  output := output
  dimensions := dimensions
  referencedBy := []
  name := ""
  layer := -1
  scalar := scalar
  hasExternalOutputs := false
  hasExternalInputs := false
  hasInternalOutputs := false
  hasInternalInputs := false
  isInplace := false
  isDeductable := false
  customOp := none
  active := true
  scopeId := 0
  scopeName := ""
  rewindNode := -1
  rewindLayer := (-1, -1)
  frameId := -1

/-- Embedding of `Node::pullValues(Node* other)` (Node.h, lines 203-227),
statement by statement and in source order.  The returned boolean reports
whether `delete this->_customOp;` executed, i.e. whether the recipient's
prior custom op was released; note the source runs
`this->setDeductable(other->isDeductable());` *before* testing
`_isDeductable`, and appends (`emplace_back`) to `_input`, `_output` and
`_dimensions` rather than clearing them first.  The `_customOp` pointer
itself is never assigned by the source, so the field is left unchanged. -/
def pullValues (this other : Node) : Node × Bool :=
  let n1 : Node :=
    { this with
      protoContext := other.protoContext
      dataType := other.dataType
      scalar := other.scalar
      hasExternalInputs := other.hasExternalInputs
      hasExternalOutputs := other.hasExternalOutputs
      hasInternalInputs := other.hasInternalInputs
      hasInternalOutputs := other.hasInternalOutputs
      isInplace := other.isInplace
      active := other.active
      scopeId := other.scopeId
      scopeName := other.scopeName
      layer := other.layer
      isDeductable := other.isDeductable }
  let released : Bool := n1.customOp.isSome && n1.isDeductable
  ({ n1 with
      input := n1.input ++ other.input
      output := n1.output ++ other.output
      dimensions := n1.dimensions ++ other.dimensions },
   released)

/-- Modelled from the spec: `Node::pickOutputOnce(int outputId)` is declared
in the header but implemented outside the in-scope sources.  The spec says
the operation is idempotent, that the outputs list tolerates duplicates but
"`pickOutputOnce` deduplicates", and that afterwards the list "contains at
most one entry with output index k"; so the operation removes every entry
with output index `k` and appends the single entry `(k, 0)`. -/
def pickOutputOnce (outs : List (Int × Int)) (k : Int) : List (Int × Int) :=
  (outs.filter (fun p => !(p.1 == k))) ++ [(k, 0)]

/-- Number of entries of the outputs list whose output index is `k`. -/
def outCount (outs : List (Int × Int)) (k : Int) : Nat :=
  outs.countP (fun p => p.1 == k)

/-- `n` successive calls of `pickOutputOnce` with the same index `k`. -/
def pickOutputOnceIter (k : Int) : Nat → List (Int × Int) → List (Int × Int)
  | 0, outs => outs
  | n + 1, outs => pickOutputOnceIter k n (pickOutputOnce outs k)

/-- Edge-modification operation `pickInput(nodeId, outputIndex)`.  Modelled
from the spec: appends the input edge pair. -/
def pickInput (n : Node) (src k : Int) : Node :=
  { n with input := n.input ++ [(src, k)] }

/-- Edge-modification operation `pickOutput(nodeId, inputIndex)`.  Modelled
from the spec: appends the output edge pair. -/
def pickOutput (n : Node) (dst k : Int) : Node :=
  { n with output := n.output ++ [(dst, k)] }

/-- Modelled from the spec: `Node::equals(Node* other)` is declared in the
header but implemented outside the in-scope sources.  The spec: "`equals
(other)` compares opType, opNum, id, and edge sets; scalar-tensor content
is not part of identity". -/
def equals (this other : Node) : Bool :=
  this.opType == other.opType && this.opNum == other.opNum &&
    this.id == other.id && this.input == other.input &&
    this.output == other.output

end Node

/-- Projection of a node list onto identity and input edges; `buildGraph`
preserves it (it only assigns layers). -/
def edgeProj (g : List Node) : List (Int × List (Int × Int)) :=
  g.map (fun n => (n.id, n.input))

/-- Input edge list of the node with a given id (empty when absent). -/
def inputsOfId (g : List Node) (i : Int) : List (Int × Int) :=
  match g.find? (fun n => n.id == i) with
  | none => []
  | some n => n.input

/-- An edge source id is internal when some node of the graph carries it;
otherwise the edge crosses the graph boundary to an external variable. -/
def isInternalId (g : List Node) (s : Int) : Bool :=
  g.any (fun m => m.id == s)

/-- Internal predecessors of the node with id `i`: the source ids of its
input edges that name nodes of the same graph. -/
def predsOf (g : List Node) (i : Int) : List Int :=
  ((inputsOfId g i).map Prod.fst).filter (isInternalId g)

/-- Layer each id of a list under a partial layer assignment; `none` as
soon as one id is unassigned (`List.mapM` specialised for induction). -/
def layersAux (f : Int → Option Nat) : List Int → Option (List Nat)
  | [] => some []
  | x :: xs =>
    match f x, layersAux f xs with
    | some v, some vs => some (v :: vs)
    | _, _ => none

/-- Modelled from the spec: one step of the Kahn-style longest-path
layering performed by `Graph::buildGraph` (whose body is outside the
in-scope sources): a source (no internal predecessors) sits at layer 0, and
otherwise the layer is one greater than the maximum layer of the
predecessors, undefined until every predecessor is layered. -/
def stepLayers (preds : Int → List Int) (L : Int → Option Nat) :
    Int → Option Nat := fun i =>
  if preds i = [] then some 0
  else
    match layersAux L (preds i) with
    | some ls => some (1 + ls.foldl Nat.max 0)
    | none => none

/-- Longest-path layer of a node id, with fuel bounding the recursion
depth; on a cycle the fuel runs out and the layer stays `none`, matching
the `cycle-without-rewind` build failure. -/
def layerOf (preds : Int → List Int) : Nat → Int → Option Nat
  | 0 => fun _ => none
  | fuel + 1 => stepLayers preds (layerOf preds fuel)

/-- Fuel sufficient for any acyclic graph: one more than the node count. -/
def graphFuel (g : List Node) : Nat := g.length + 1

/-- Write a layer assignment into the nodes' `layer` fields; `none` when
some node could not be layered. -/
def assignLayers (f : Int → Option Nat) : List Node → Option (List Node)
  | [] => some []
  | n :: ns =>
    match f n.id, assignLayers f ns with
    | some l, some ns2 => some ({ n with layer := (l : Int) } :: ns2)
    | _, _ => none

/-- Modelled from the spec: `Graph::buildGraph` (body outside the in-scope
sources) validates edges and assigns every node its Kahn-style longest-path
layer; failure (unresolved layering, cycle without rewind) is `none`.  The
graph is kept as the node list in declaration order; the per-layer dispatch
order is derived from the stored layers by `layerMembers`. -/
def buildGraph (g : List Node) : Option (List Node) :=
  assignLayers (layerOf (predsOf g) (graphFuel g)) g

/-- Ids of the nodes sitting at layer `l`, in ascending id order ("order
each layer by ascending id to make dispatch deterministic"). -/
def layerMembers (g : List Node) (l : Int) : List Int :=
  (((g.filter (fun n => n.layer == l)).map (fun n => n.id)).mergeSort
    (fun a b => a ≤ b))

/-- A node id has an internal consumer when some node of the graph holds an
input edge naming it as source. -/
def hasInternalConsumer (g : List Node) (i : Int) : Bool :=
  g.any (fun m => m.input.any (fun p => p.1 == i))

/-- Modelled from the spec: `Graph::fetchOutputs` (body outside the
in-scope sources) "returns variables for nodes explicitly marked as graph
outputs, or, when none are marked, the set of nodes with
`hasExternalOutputs` or no internal consumers"; a variable is the pair
(node id, output index), index 0 for single-output nodes. -/
def fetchOutputs (declared : List (Int × Int)) (g : List Node) :
    List (Int × Int) :=
  if declared.isEmpty then
    (g.filter
        (fun n => n.hasExternalOutputs || !hasInternalConsumer g n.id)).map
      (fun n => (n.id, 0))
  else declared

/-- Modelled from the spec: the graph of the `tensor_slice.fb` test
scenario, whose binary is not among the in-scope sources — a minimal graph
whose single terminal node has id 7 (one producing output, no explicit
output declarations): a source node 1 consumed by node 7, which nobody
consumes. -/
def terminalGraph : List Node :=
  [Node.fresh .TRANSFORM_SAME 0 1 [] [] [] 0,
   Node.fresh .SCALAR 1 7 [(1, 0)] [] [] 0]

/-- Execution status values (spec §6); only `OK` is produced by the
verified scenario. -/
inductive GraphStatus where
  | OK
  | opFailed
  | missingInput
  deriving DecidableEq, Repr

/-- A rank-2 tensor of ones, row-major. -/
def onesTensor (r c : Nat) : List (List Rat) :=
  List.replicate r (List.replicate c 1)

/-- Elementwise multiplication of a rank-2 tensor by a scalar. -/
def scalarMulT (s : Rat) (m : List (List Rat)) : List (List Rat) :=
  m.map (fun row => row.map (fun x => s * x))

/-- Reduction along axis 1 with keep-dims false: each row collapses to a
single value.  Modelled from the spec: the spec does not name the
reduction operator of the `reduce_dim_false.fb` graph, only its result
`[3, 3, 3]`; the mean is the reduction consistent with that declared
output and with the in-repo test expectation. -/
def reduceMeanAxis1 (m : List (List Rat)) : List Rat :=
  m.map (fun row => row.foldl (· + ·) 0 / (row.length : Rat))

/-- Modelled from the spec: executing the `reduce_dim_false.fb` graph
(executioner body outside the in-scope sources): elementwise multiply of a
`[3,3]` ones tensor by scalar 3, then reduce along axis 1 with keep-dims
false; both operators are total on these shapes, so the status is `OK`. -/
def runReduceDimFalse : GraphStatus × List Rat :=
  (GraphStatus.OK, reduceMeanAxis1 (scalarMulT 3 (onesTensor 3 3)))

/-- Concrete recipient for the `pullValues` counterexamples: a node that
already carries one input edge, one output edge and one dimension, owns a
custom op and is deductable. -/
def cexRecipient : Node :=
  { Node.fresh .TRANSFORM_SAME 0 1 [(9, 0)] [(5, 1)] [2] 0 with
      customOp := some 7
      isDeductable := true }

/-- Concrete source for the `pullValues` counterexamples: a node with empty
edge lists and `isDeductable = false`. -/
def cexSource : Node :=
  Node.fresh .TRANSFORM_SAME 0 2 [] [] [] 0

/-- Concrete two-node graph for the build witnesses: node 1 is a source,
node 2 consumes its output. -/
def wGraph : List Node :=
  [Node.fresh .TRANSFORM_SAME 0 1 [] [] [] 0,
   Node.fresh .SCALAR 0 2 [(1, 0)] [] [] 0]

/-- `wGraph` after layering: the source at layer 0, its consumer at 1. -/
def wBuilt : List Node :=
  [{ Node.fresh .TRANSFORM_SAME 0 1 [] [] [] 0 with layer := 0 },
   { Node.fresh .SCALAR 0 2 [(1, 0)] [] [] 0 with layer := 1 }]

lemma outCount_pickOutputOnce (outs : List (Int × Int)) (k : Int) :
    Node.outCount (Node.pickOutputOnce outs k) k = 1 := by
  unfold Node.pickOutputOnce Node.outCount
  rw [List.countP_append]
  have h1 : (outs.filter (fun p => !(p.1 == k))).countP
      (fun p => p.1 == k) = 0 := by
    rw [List.countP_eq_zero]
    intro p hp
    have h2 := (List.mem_filter.mp hp).2
    simp only [Bool.not_eq_true'] at h2
    simp [h2]
  rw [h1]
  simp [List.countP_cons]

lemma pickOutputOnce_idem (outs : List (Int × Int)) (k : Int) :
    Node.pickOutputOnce (Node.pickOutputOnce outs k) k =
      Node.pickOutputOnce outs k := by
  unfold Node.pickOutputOnce
  rw [List.filter_append]
  simp [List.filter_filter, Bool.and_self]

lemma foldl_max_init_le (vs : List Nat) (a : Nat) : a ≤ vs.foldl Nat.max a := by
  induction vs generalizing a with
  | nil => exact Nat.le_refl a
  | cons x xs ih => exact Nat.le_trans (Nat.le_max_left a x) (ih (Nat.max a x))

lemma mem_le_foldl_max (vs : List Nat) (a v : Nat) (hv : v ∈ vs) :
    v ≤ vs.foldl Nat.max a := by
  induction vs generalizing a with
  | nil => cases hv
  | cons x xs ih =>
    rcases List.mem_cons.mp hv with h | h
    · subst h
      exact Nat.le_trans (Nat.le_max_right a v) (foldl_max_init_le xs _)
    · exact ih _ h

lemma layersAux_congr (f g : Int → Option Nat)
    (hfg : ∀ x v, f x = some v → g x = some v) (xs : List Int)
    (vs : List Nat) (h : layersAux f xs = some vs) :
    layersAux g xs = some vs := by
  induction xs generalizing vs with
  | nil => simpa [layersAux] using h
  | cons x xs ih =>
    simp only [layersAux] at h ⊢
    cases hfx : f x with
    | none => rw [hfx] at h; cases h
    | some v =>
      rw [hfx] at h
      cases hrest : layersAux f xs with
      | none => rw [hrest] at h; cases h
      | some ws =>
        rw [hrest] at h
        rw [hfg x v hfx, ih ws hrest]
        exact h

lemma layersAux_mem (f : Int → Option Nat) (xs : List Int) (vs : List Nat)
    (h : layersAux f xs = some vs) (x : Int) (hx : x ∈ xs) :
    ∃ v, f x = some v ∧ v ∈ vs := by
  induction xs generalizing vs with
  | nil => cases hx
  | cons y ys ih =>
    simp only [layersAux] at h
    cases hfy : f y with
    | none => rw [hfy] at h; cases h
    | some v =>
      rw [hfy] at h
      cases hrest : layersAux f ys with
      | none => rw [hrest] at h; cases h
      | some ws =>
        rw [hrest] at h
        have hvs : vs = v :: ws := (Option.some.inj h).symm
        subst hvs
        rcases List.mem_cons.mp hx with rfl | hmem
        · exact ⟨v, hfy, List.mem_cons_self v ws⟩
        · obtain ⟨w, hw, hwmem⟩ := ih ws hrest hmem
          exact ⟨w, hw, List.mem_cons_of_mem v hwmem⟩

lemma stepLayers_mono (preds : Int → List Int) (L L2 : Int → Option Nat)
    (hL : ∀ j w, L j = some w → L2 j = some w) (i : Int) (v : Nat)
    (h : stepLayers preds L i = some v) : stepLayers preds L2 i = some v := by
  unfold stepLayers at h ⊢
  by_cases hp : preds i = []
  · simpa [hp] using h
  · rw [if_neg hp] at h ⊢
    cases hls : layersAux L (preds i) with
    | none => rw [hls] at h; cases h
    | some ls =>
      rw [hls] at h
      rw [layersAux_congr L L2 hL (preds i) ls hls]
      exact h

lemma layerOf_succ (preds : Int → List Int) (fuel : Nat) (i : Int) (v : Nat)
    (h : layerOf preds fuel i = some v) :
    layerOf preds (fuel + 1) i = some v := by
  induction fuel generalizing i v with
  | zero => simp [layerOf] at h
  | succ m ih =>
    simp only [layerOf] at h ⊢
    exact stepLayers_mono preds _ _ (fun j w hw => ih j w hw) i v h

lemma layerOf_spec (preds : Int → List Int) (fuel : Nat) (i : Int) (v : Nat)
    (h : layerOf preds fuel i = some v) :
    (preds i = [] → v = 0) ∧
    (preds i ≠ [] → ∃ ls : List Nat,
      layersAux (layerOf preds fuel) (preds i) = some ls ∧
      v = 1 + ls.foldl Nat.max 0) ∧
    (∀ p ∈ preds i, ∀ w, layerOf preds fuel p = some w → w < v) := by
  cases fuel with
  | zero => simp [layerOf] at h
  | succ m =>
    simp only [layerOf] at h
    unfold stepLayers at h
    by_cases hp : preds i = []
    · rw [if_pos hp] at h
      refine ⟨fun _ => (Option.some.inj h).symm, fun hne => absurd hp hne, ?_⟩
      intro p hpmem
      rw [hp] at hpmem
      cases hpmem
    · rw [if_neg hp] at h
      cases hls : layersAux (layerOf preds m) (preds i) with
      | none => rw [hls] at h; cases h
      | some ls =>
        rw [hls] at h
        have hv : v = 1 + ls.foldl Nat.max 0 := (Option.some.inj h).symm
        have hlift : layersAux (layerOf preds (m + 1)) (preds i) = some ls :=
          layersAux_congr _ _ (fun j w hw => layerOf_succ preds m j w hw) _ ls hls
        refine ⟨fun he => absurd he hp, fun _ => ⟨ls, by simpa [layerOf] using hlift, hv⟩, ?_⟩
        intro p hpmem w hw
        obtain ⟨w0, hw0, hw0mem⟩ := layersAux_mem _ _ _ hls p hpmem
        have hlift2 : layerOf preds (m + 1) p = some w0 :=
          layerOf_succ preds m p w0 hw0
        have hww : w = w0 := by
          simp only [layerOf] at hw
          simp only [layerOf] at hlift2
          rw [hw] at hlift2
          exact Option.some.inj hlift2
        have hle : w0 ≤ ls.foldl Nat.max 0 := mem_le_foldl_max ls 0 w0 hw0mem
        omega

lemma assignLayers_mem (f : Int → Option Nat) (g g2 : List Node)
    (h : assignLayers f g = some g2) (n : Node) (hn : n ∈ g2) :
    ∃ l : Nat, f n.id = some l ∧ n.layer = (l : Int) := by
  induction g generalizing g2 with
  | nil =>
    simp only [assignLayers] at h
    rw [← Option.some.inj h] at hn
    cases hn
  | cons m ms ih =>
    simp only [assignLayers] at h
    cases hfm : f m.id with
    | none => rw [hfm] at h; cases h
    | some l =>
      rw [hfm] at h
      cases hrest : assignLayers f ms with
      | none => rw [hrest] at h; cases h
      | some ms2 =>
        rw [hrest] at h
        rw [← Option.some.inj h] at hn
        rcases List.mem_cons.mp hn with rfl | hmem
        · exact ⟨l, hfm, rfl⟩
        · exact ih ms2 hrest hmem

lemma assignLayers_edgeProj (f : Int → Option Nat) (g g2 : List Node)
    (h : assignLayers f g = some g2) : edgeProj g2 = edgeProj g := by
  induction g generalizing g2 with
  | nil =>
    simp only [assignLayers] at h
    rw [← Option.some.inj h]
  | cons m ms ih =>
    simp only [assignLayers] at h
    cases hfm : f m.id with
    | none => rw [hfm] at h; cases h
    | some l =>
      rw [hfm] at h
      cases hrest : assignLayers f ms with
      | none => rw [hrest] at h; cases h
      | some ms2 =>
        rw [hrest] at h
        rw [← Option.some.inj h]
        have h3 := ih ms2 hrest
        simp only [edgeProj, List.map_cons] at h3 ⊢
        rw [h3]

lemma assignLayers_fix (f : Int → Option Nat) (g g2 : List Node)
    (h : assignLayers f g = some g2) : assignLayers f g2 = some g2 := by
  induction g generalizing g2 with
  | nil =>
    simp only [assignLayers] at h
    rw [← Option.some.inj h]
    rfl
  | cons m ms ih =>
    simp only [assignLayers] at h
    cases hfm : f m.id with
    | none => rw [hfm] at h; cases h
    | some l =>
      rw [hfm] at h
      cases hrest : assignLayers f ms with
      | none => rw [hrest] at h; cases h
      | some ms2 =>
        rw [hrest] at h
        rw [← Option.some.inj h]
        simp only [assignLayers]
        have hid : f ({ m with layer := (l : Int) } : Node).id = some l := hfm
        rw [hid, ih ms2 hrest]

lemma ids_of_edgeProj (g1 g2 : List Node) (hpe : edgeProj g1 = edgeProj g2) :
    g1.map (fun n => n.id) = g2.map (fun n => n.id) := by
  have h2 := congrArg (List.map Prod.fst) hpe
  simpa [edgeProj, List.map_map, Function.comp] using h2

lemma length_of_edgeProj (g1 g2 : List Node) (hpe : edgeProj g1 = edgeProj g2) :
    g1.length = g2.length := by
  have h2 := congrArg List.length hpe
  simpa [edgeProj] using h2

lemma inputsOfId_congr (g1 g2 : List Node) (hpe : edgeProj g1 = edgeProj g2)
    (i : Int) : inputsOfId g1 i = inputsOfId g2 i := by
  induction g1 generalizing g2 with
  | nil =>
    cases g2 with
    | nil => rfl
    | cons m ms => simp [edgeProj] at hpe
  | cons n ns ih =>
    cases g2 with
    | nil => simp [edgeProj] at hpe
    | cons m ms =>
      simp only [edgeProj, List.map_cons, List.cons.injEq, Prod.mk.injEq] at hpe
      obtain ⟨⟨hid, hinp⟩, hrest⟩ := hpe
      simp only [inputsOfId]
      cases hni : (n.id == i) with
      | true =>
        have hmi : (m.id == i) = true := by rw [← hid]; exact hni
        simp only [List.find?, hni, hmi]
        exact hinp
      | false =>
        have hmi : (m.id == i) = false := by rw [← hid]; exact hni
        simp only [List.find?, hni, hmi]
        exact ih ms (by simpa [edgeProj] using hrest)

lemma any_beq_of_map_ids (g1 g2 : List Node)
    (hids : g1.map (fun n => n.id) = g2.map (fun n => n.id)) (s : Int) :
    g1.any (fun m => m.id == s) = g2.any (fun m => m.id == s) := by
  induction g1 generalizing g2 with
  | nil =>
    cases g2 with
    | nil => rfl
    | cons _ _ => simp at hids
  | cons n ns ih =>
    cases g2 with
    | nil => simp at hids
    | cons m ms =>
      simp only [List.map_cons, List.cons.injEq] at hids
      obtain ⟨hid, hrest⟩ := hids
      simp only [List.any_cons]
      rw [hid, ih ms hrest]

lemma isInternalId_congr (g1 g2 : List Node) (hpe : edgeProj g1 = edgeProj g2)
    (s : Int) : isInternalId g1 s = isInternalId g2 s := by
  have hids := ids_of_edgeProj g1 g2 hpe
  unfold isInternalId
  exact any_beq_of_map_ids g1 g2 hids s

lemma predsOf_congr (g1 g2 : List Node) (hpe : edgeProj g1 = edgeProj g2) :
    predsOf g1 = predsOf g2 := by
  funext i
  unfold predsOf
  have hf : isInternalId g1 = isInternalId g2 :=
    funext (isInternalId_congr g1 g2 hpe)
  rw [inputsOfId_congr g1 g2 hpe i, hf]

/-- C1 counterexample: `pullValues` appends (`emplace_back`) the other
node's edges and dimensions to the recipient's existing ones instead of
overwriting them, so a recipient that already owned an input edge does not
end up with edge lists equal to the source's. -/
theorem pullValues_not_overwrite :
    ¬((cexRecipient.pullValues cexSource).1.input = cexSource.input ∧
      (cexRecipient.pullValues cexSource).1.output = cexSource.output ∧
      (cexRecipient.pullValues cexSource).1.dimensions = cexSource.dimensions) := by
  decide

/-- C1 (amended): after `A.pullValues(B)` the attributes of `A` (data type,
scalar, boundary flags, inplace, active, scope, layer, deductable) equal
those of `B`, while the input edges, output edges and dimensions of `A`
equal `A`'s prior lists with `B`'s appended; they equal `B`'s exactly when
`A`'s were empty beforehand. -/
theorem pullValues_appends (a b : Node) :
    (a.pullValues b).1.input = a.input ++ b.input ∧
    (a.pullValues b).1.output = a.output ++ b.output ∧
    (a.pullValues b).1.dimensions = a.dimensions ++ b.dimensions ∧
    (a.pullValues b).1.dataType = b.dataType ∧
    (a.pullValues b).1.scalar = b.scalar ∧
    (a.pullValues b).1.hasExternalInputs = b.hasExternalInputs ∧
    (a.pullValues b).1.hasExternalOutputs = b.hasExternalOutputs ∧
    (a.pullValues b).1.hasInternalInputs = b.hasInternalInputs ∧
    (a.pullValues b).1.hasInternalOutputs = b.hasInternalOutputs ∧
    (a.pullValues b).1.isInplace = b.isInplace ∧
    (a.pullValues b).1.active = b.active ∧
    (a.pullValues b).1.scopeId = b.scopeId ∧
    (a.pullValues b).1.layer = b.layer ∧
    (a.pullValues b).1.isDeductable = b.isDeductable := by
  repeat refine ⟨rfl, ?_⟩
  rfl

/-- C2 counterexample: a recipient that owns a custom op and is deductable
before the call does *not* release it when the source's deductable flag is
false, because the source order `setDeductable(other->isDeductable())`
followed by `if (_customOp != nullptr && _isDeductable) delete ...` tests
the already-overwritten flag. -/
theorem pullValues_release_not_prior_flag :
    cexRecipient.isDeductable = true ∧
    cexRecipient.customOp.isSome = true ∧
    cexSource.isDeductable = false ∧
    (cexRecipient.pullValues cexSource).2 = false := by
  decide

/-- C3: after any positive number of calls of `pickOutputOnce(k)` the
outputs list contains at most one entry with output index `k`, for every
starting list — including lists already holding duplicate entries with
index `k` — and calling `pickOutputOnce(k)` twice leaves the same outputs
list as calling it once. -/
theorem pickOutputOnce_at_most_one (outs : List (Int × Int)) (k : Int)
    (n : Nat) :
    Node.outCount (Node.pickOutputOnceIter k (n + 1) outs) k ≤ 1 ∧
    Node.pickOutputOnce (Node.pickOutputOnce outs k) k =
      Node.pickOutputOnce outs k := by
  refine ⟨?_, pickOutputOnce_idem outs k⟩
  induction n generalizing outs with
  | zero =>
    show Node.outCount (Node.pickOutputOnce outs k) k ≤ 1
    rw [outCount_pickOutputOnce outs k]
  | succ m ih =>
    show Node.outCount
        (Node.pickOutputOnceIter k (m + 1) (Node.pickOutputOnce outs k)) k ≤ 1
    exact ih (Node.pickOutputOnce outs k)

/-- C9: `equals` holds exactly when opType, opNum, id and the two edge
lists agree — it is determined solely by those fields — and consequently
two nodes that differ only in their scalar attribute's content are equal. -/
theorem equals_ignores_scalar (a b : Node) :
    (a.equals b = true ↔
      (a.opType = b.opType ∧ a.opNum = b.opNum ∧ a.id = b.id ∧
       a.input = b.input ∧ a.output = b.output)) ∧
    (∀ s : Rat, a.equals { a with scalar := s } = true) := by
  constructor
  · simp [Node.equals, and_assoc]
  · intro s
    simp [Node.equals]

/-- C10: a freshly constructed node is in the default control-flow state
(active, root scope 0, frame −1, rewind node −1, rewind layer (−1,−1),
inplace false), and the edge-modification operations `pickInput`,
`pickOutput` and `pickOutputOnce` leave all of these fields unchanged. -/
theorem fresh_default_control_flow_state :
    (∀ (t : OpType) (num id : Int) (inp out : List (Int × Int))
       (dims : List Int) (s : Rat),
       (Node.fresh t num id inp out dims s).active = true ∧
       (Node.fresh t num id inp out dims s).scopeId = 0 ∧
       (Node.fresh t num id inp out dims s).frameId = -1 ∧
       (Node.fresh t num id inp out dims s).rewindNode = -1 ∧
       (Node.fresh t num id inp out dims s).rewindLayer = (-1, -1) ∧
       (Node.fresh t num id inp out dims s).isInplace = false) ∧
    (∀ (n : Node) (src k : Int),
       ((n.pickInput src k).active = n.active ∧
        (n.pickInput src k).scopeId = n.scopeId ∧
        (n.pickInput src k).frameId = n.frameId ∧
        (n.pickInput src k).rewindNode = n.rewindNode ∧
        (n.pickInput src k).rewindLayer = n.rewindLayer ∧
        (n.pickInput src k).isInplace = n.isInplace) ∧
       ((n.pickOutput src k).active = n.active ∧
        (n.pickOutput src k).scopeId = n.scopeId ∧
        (n.pickOutput src k).frameId = n.frameId ∧
        (n.pickOutput src k).rewindNode = n.rewindNode ∧
        (n.pickOutput src k).rewindLayer = n.rewindLayer ∧
        (n.pickOutput src k).isInplace = n.isInplace)) := by
  constructor
  · intro t num id inp out dims s
    exact ⟨rfl, rfl, rfl, rfl, rfl, rfl⟩
  · intro n src k
    exact ⟨⟨rfl, rfl, rfl, rfl, rfl, rfl⟩, ⟨rfl, rfl, rfl, rfl, rfl, rfl⟩⟩

/-- C2 (amended): `A.pullValues(B)` releases the prior owned custom op iff
`A` holds a custom op (the pointer is the recipient's) and `B`'s deductable
flag is true: the deductable flag consulted is the one just copied from
`B`, not the recipient's prior flag. -/
theorem pullValues_release_flag (a b : Node) :
    (a.pullValues b).2 = (a.customOp.isSome && b.isDeductable) := by
  rfl

/-- C4: in a graph that builds successfully, a node with no internal
predecessor (a source) has layer 0, a node with at least one internal
predecessor has layer one greater than the maximum layer among its
predecessors, every node in the built graph whose id is an internal
predecessor carries a strictly smaller layer, and before layering a
freshly constructed node's layer is −1. -/
theorem buildGraph_layer_invariant (g g2 : List Node)
    (h : buildGraph g = some g2) (n : Node) (hn : n ∈ g2) :
    (predsOf g n.id = [] → n.layer = 0) ∧
    (predsOf g n.id ≠ [] → ∃ ls : List Nat,
      layersAux (layerOf (predsOf g) (graphFuel g)) (predsOf g n.id) =
        some ls ∧
      n.layer = 1 + ((ls.foldl Nat.max 0 : Nat) : Int)) ∧
    (∀ p ∈ predsOf g n.id, ∀ m ∈ g2, m.id = p → m.layer < n.layer) ∧
    (∀ (t : OpType) (num id : Int) (inp out : List (Int × Int))
       (dims : List Int) (s : Rat),
       (Node.fresh t num id inp out dims s).layer = -1) := by
  have h2 : assignLayers (layerOf (predsOf g) (graphFuel g)) g = some g2 := h
  obtain ⟨l, hl, hnl⟩ := assignLayers_mem _ g g2 h2 n hn
  obtain ⟨hempty, hnonempty, hstrict⟩ :=
    layerOf_spec (predsOf g) (graphFuel g) n.id l hl
  refine ⟨?_, ?_, ?_, ?_⟩
  · intro he
    rw [hnl, hempty he]
    rfl
  · intro hne
    obtain ⟨ls, hls, hv⟩ := hnonempty hne
    refine ⟨ls, hls, ?_⟩
    rw [hnl, hv]
    push_cast
    ring
  · intro p hp m hm hmid
    obtain ⟨lm, hlm, hml⟩ := assignLayers_mem _ g g2 h2 m hm
    have hlt : lm < l := hstrict p hp lm (by rw [← hmid]; exact hlm)
    rw [hnl, hml]
    exact_mod_cast hlt
  · intro t num id inp out dims s
    rfl

/-- C4 witness: in the two-node graph `wGraph` the consumer node (id 2)
sits one layer above its only predecessor, node 1. -/
theorem buildGraph_layer_invariant_witness :
    buildGraph wGraph = some wBuilt ∧
    ({ Node.fresh .SCALAR 0 2 [(1, 0)] [] [] 0 with layer := 1 } ∈ wBuilt) ∧
    ((predsOf wGraph
        ({ Node.fresh .SCALAR 0 2 [(1, 0)] [] [] 0 with layer := 1 } :
          Node).id = [] →
      ({ Node.fresh .SCALAR 0 2 [(1, 0)] [] [] 0 with layer := 1 } :
          Node).layer = 0) ∧
     (predsOf wGraph
        ({ Node.fresh .SCALAR 0 2 [(1, 0)] [] [] 0 with layer := 1 } :
          Node).id ≠ [] → ∃ ls : List Nat,
        layersAux (layerOf (predsOf wGraph) (graphFuel wGraph))
            (predsOf wGraph
              ({ Node.fresh .SCALAR 0 2 [(1, 0)] [] [] 0 with layer := 1 } :
                Node).id) =
          some ls ∧
        ({ Node.fresh .SCALAR 0 2 [(1, 0)] [] [] 0 with layer := 1 } :
            Node).layer = 1 + ((ls.foldl Nat.max 0 : Nat) : Int)) ∧
     (∀ p ∈ predsOf wGraph
         ({ Node.fresh .SCALAR 0 2 [(1, 0)] [] [] 0 with layer := 1 } :
           Node).id,
       ∀ m ∈ wBuilt, m.id = p →
         m.layer <
           ({ Node.fresh .SCALAR 0 2 [(1, 0)] [] [] 0 with layer := 1 } :
             Node).layer) ∧
     (∀ (t : OpType) (num id : Int) (inp out : List (Int × Int))
        (dims : List Int) (s : Rat),
        (Node.fresh t num id inp out dims s).layer = -1)) :=
  ⟨by decide, by decide,
   buildGraph_layer_invariant wGraph wBuilt (by decide) _ (by decide)⟩

/-- C5: on the modelled `tensor_slice.fb` graph — no explicit output
declarations, single terminal node id 7 — `fetchOutputs` returns exactly
one variable, with id 7 and index 0. -/
theorem fetchOutputs_implicit_terminal :
    fetchOutputs [] terminalGraph = [(7, 0)] := by
  decide

/-- C6: executing the modelled `reduce_dim_false.fb` graph — elementwise
multiply of a `[3,3]` ones tensor by scalar 3 followed by a reduction
along axis 1 with keep-dims false — returns status OK and a single
`[3]`-shaped output equal to `[3, 3, 3]`. -/
theorem reduceDimFalse_output :
    runReduceDimFalse = (GraphStatus.OK, [3, 3, 3]) ∧
    runReduceDimFalse.2.length = 3 := by
  constructor
  · show (GraphStatus.OK, reduceMeanAxis1 (scalarMulT 3 (onesTensor 3 3))) =
      (GraphStatus.OK, [3, 3, 3])
    rw [Prod.mk.injEq]
    refine ⟨rfl, ?_⟩
    norm_num [reduceMeanAxis1, scalarMulT, onesTensor, List.replicate]
  · rfl

/-- C7: `buildGraph` is idempotent: if building `g` succeeds with `g2`,
building `g2` again succeeds and returns `g2` itself — hence the same
layer assignment for every node and the same per-layer ordering — and the
id/input-edge projection of the built graph equals that of the original
graph (edges are untouched). -/
theorem buildGraph_idempotent (g g2 : List Node)
    (h : buildGraph g = some g2) :
    buildGraph g2 = some g2 ∧ edgeProj g2 = edgeProj g := by
  have h2 : assignLayers (layerOf (predsOf g) (graphFuel g)) g = some g2 := h
  have hpe : edgeProj g2 = edgeProj g := assignLayers_edgeProj _ g g2 h2
  have hpreds : predsOf g2 = predsOf g := predsOf_congr g2 g hpe
  have hlen : g2.length = g.length := length_of_edgeProj g2 g hpe
  have hfix : assignLayers (layerOf (predsOf g) (graphFuel g)) g2 = some g2 :=
    assignLayers_fix _ g g2 h2
  refine ⟨?_, hpe⟩
  show assignLayers (layerOf (predsOf g2) (graphFuel g2)) g2 = some g2
  rw [hpreds]
  unfold graphFuel
  rw [hlen]
  exact hfix

/-- C7 witness: building the two-node graph `wGraph` yields `wBuilt`, and
building `wBuilt` again returns it unchanged with the same edges. -/
theorem buildGraph_idempotent_witness :
    buildGraph wGraph = some wBuilt ∧
    (buildGraph wBuilt = some wBuilt ∧ edgeProj wBuilt = edgeProj wGraph) :=
  ⟨by decide, buildGraph_idempotent wGraph wBuilt (by decide)⟩

end Nd4j
